import Mathlib

/-!
Verification development for the O-RAN security knowledge-graph repository.

The Python modules under `graph_scripts/` (mapping.py, helpers.py,
database.py, import_data.py) and `oran_pipeline.py` are shallowly embedded
below: module-level mutable dictionaries become association lists threaded
through explicit state, `raise` becomes `Except`, and the pandas row loops
become structural recursion over lists.  Dictionaries preserve Python's
insertion order, so they are modelled as ordered association lists whose
update semantics (`setKey`) replaces in place or appends at the end.
-/

/-- First-match lookup in an ordered association list; models Python
`dict.get(key)` (keys are unique in every dictionary the scripts build). -/
def getVal {α : Type} : List (String × α) → String → Option α
  | [], _ => none
  | (k, v) :: rest, key => if k = key then some v else getVal rest key

/-- In-place update or append; models Python `d[key] = value` preserving
insertion order. -/
def setKey {α : Type} : List (String × α) → String → α → List (String × α)
  | [], key, value => [(key, value)]
  | (k, v) :: rest, key, value =>
    if k = key then (key, value) :: rest else (k, v) :: setKey rest key value

/-- mapping.py `NAMES_MAP`: the static alias table mapping raw source-text
names to canonical names. -/
def NAMES_MAP : List (String × String) := [
  ("E2", "E2 Interface"),
  ("xApps", "Near-RT RIC"),
  ("xAPPs", "Near-RT RIC"),
  ("rApps", "Non-RT RIC"),
  ("rAPPs", "Non-RT RIC"),
  ("ASSET-C-29", "O-Cloud"),
  ("ASSET-C-30", "External Components"),
  ("ASSET-C-08", "O-Cloud"),
  ("NFO/FOCOM", "O-Cloud"),
  ("Database holding data from xApp applications and E2 Node", "Near-RT RIC"),
  ("Database holding data from xApp applications and E2", "Near-RT RIC"),
  ("ML components deploying machine learning (xApps/rApps)", "O-Cloud"),
  ("Training or test data sets collected externally or internally", "External Components"),
  ("Trained ML model", "External Components"),
  ("Near-RT-RIC SW", "Near-RT RIC"),
  ("Non-RT-RIC SW", "Non-RT RIC"),
  ("O1 interface for streaming data", "O1 Interface"),
  ("E2 interface for streaming data", "E2 Interface"),
  ("ML prediction results", "External Components"),
  ("A1 policies", "A1 Interface"),
  ("E2 node data", "Near-RT RIC"),
  ("Data transported over the O1 interface", "O1 Interface"),
  ("AAL software", "O-Cloud"),
  ("Hardware accelerator device firmware", "External Components"),
  ("Non-RT-RIC", "Non-RT RIC"),
  ("airlink with UE", "Airlink"),
  ("E2 Functions", "E2 Interface"),
  ("Y1 Functions", "Y1 Interface"),
  ("SMO Framework", "SMO"),
  ("R1 interface", "R1 Interface"),
  ("A1 interface", "A1 Interface"),
  ("Apps/VNFs/CNFs", "SMO"),
  ("Apps/VNFs/CNFs images", "SMO"),
  ("O2", "O2 Interface")]

/-- mapping.py `resolve_name_map`: alias-table lookup with fall-through.
The Python guard `if not real_name` is a falsiness test, so a looked-up
empty string would also fall through to the raw name. -/
def resolve_name_map (name : String) : String :=
  match getVal NAMES_MAP name with
  | none => name
  | some real_name => if real_name = "" then name else real_name

/-- The `ValueError`s raised by mapping.py and database.py, as a closed
error type. -/
inductive MapErr : Type where
  | duplicateEntity (component : String) (newType oldType : String)
  | unknownEntity (name : String)
  | duplicateMetadata (node : String)
  | lengthMismatch
  | invalidAttributeKey (key : String)
  deriving DecidableEq, Repr

/-- A metadata dictionary (column name to scalar value rendered as text). -/
abbrev Row := List (String × String)

/-- The module-level mutable dictionaries of mapping.py that node
registration touches: `TYPES_MAP` and `NODE_METADATA`. -/
structure MapState : Type where
  types_map : List (String × String)
  node_metadata : List (String × Row)
  deriving DecidableEq, Repr

def emptyMapState : MapState := ⟨[], []⟩

/-- mapping.py `resolve_name_to_type`: `TYPES_MAP` lookup.  The Python
guard `if not component_type` is a falsiness test, so an entity registered
under the empty-string type would also raise. -/
def resolve_name_to_type (types_map : List (String × String)) (name : String) :
    Except MapErr String :=
  match getVal types_map name with
  | none => .error (.unknownEntity name)
  | some component_type =>
    if component_type = "" then .error (.unknownEntity name) else .ok component_type

/-- One iteration of the row loop in mapping.py `register_nodes`: duplicate
check first, then the metadata write (only when non-empty), then the type
write. -/
def registerRow (st : MapState) (component component_type : String) (metadata : Row) :
    Except MapErr MapState :=
  match getVal st.types_map component with
  | some oldType => .error (.duplicateEntity component component_type oldType)
  | none =>
    .ok { types_map := st.types_map ++ [(component, component_type)],
          node_metadata :=
            if metadata = [] then st.node_metadata
            else setKey st.node_metadata component metadata }

/-- mapping.py `register_nodes`: register every row of one table under a
single component type. -/
def register_nodes (st : MapState) (component_type : String) :
    List (String × Row) → Except MapErr MapState
  | [] => .ok st
  | (component, metadata) :: rest =>
    match registerRow st component component_type metadata with
    | .error e => .error e
    | .ok st2 => register_nodes st2 component_type rest

/-- The registration phase of import_data.py: a sequence of
`register_nodes` calls, one per source table. -/
def runRegistration (st : MapState) :
    List (String × List (String × Row)) → Except MapErr MapState
  | [] => .ok st
  | (component_type, rows) :: rest =>
    match register_nodes st component_type rows with
    | .error e => .error e
    | .ok st2 => runRegistration st2 rest

/-- mapping.py `get_registered_nodes`: `list(TYPES_MAP.keys())`. -/
def get_registered_nodes (st : MapState) : List String :=
  st.types_map.map Prod.fst

/-- The duplicate sanity check of import_data.py:
`len(all_nodes) != len(set(all_nodes))`. -/
def duplicate_nodes_check (all_nodes : List String) : Bool :=
  all_nodes.length != all_nodes.dedup.length

/-- mapping.py `set_node_metadata`, inner loop over `zip(nodes,
metadata_list)`.  The guard is transcribed exactly as written in the
source: it tests the incoming metadata VALUE for membership among the
existing keys (`if metadata in data`), not the tag. -/
def setMetaLoop (tag : String) (nm : List (String × Row)) :
    List (String × String) → Except MapErr (List (String × Row))
  | [] => .ok nm
  | (node, metadata) :: rest =>
    let data := (getVal nm node).getD []
    if (getVal data metadata).isSome then .error (.duplicateMetadata node)
    else setMetaLoop tag (setKey nm node (setKey data tag metadata)) rest

/-- mapping.py `set_node_metadata`. -/
def set_node_metadata (nm : List (String × Row)) (nodes : List String)
    (tag : String) (metadata_list : List String) :
    Except MapErr (List (String × Row)) :=
  if nodes.length ≠ metadata_list.length then .error .lengthMismatch
  else setMetaLoop tag nm (nodes.zip metadata_list)

/-- mapping.py `get_expansions`: `EXPANSIONS.get(component, [component])`. -/
def get_expansions (expansions : List (String × List String)) (component : String) :
    List String :=
  (getVal expansions component).getD [component]

/-- mapping.py `drop_component`: membership in `DROP_COMPONENTS`. -/
def drop_component (drop_components : List String) (item : String) : Bool :=
  drop_components.contains item

/-- helpers.py `cleanup_string`, per character: `.lower()` then the chain
of single-character `.replace` calls (space, colon, slash, parens, dot);
`none` means the character is deleted. -/
def cleanupChar (c : Char) : Option Char :=
  let c := c.toLower
  if c = ' ' then some '_'
  else if c = ':' then none
  else if c = '/' then some '_'
  else if c = '(' then none
  else if c = ')' then none
  else if c = '.' then some '_'
  else some c

/-- helpers.py `cleanup_string`: every replacement in the source is a
single character to a single character (or to nothing), so the whole chain
is one character-wise pass. -/
def cleanup_string (s : String) : String :=
  ⟨s.data.filterMap cleanupChar⟩

/-- helpers.py `cleanup_key_names`. -/
def cleanup_key_names (d : Row) : Row :=
  d.map (fun kv => (cleanup_string kv.1, kv.2))

/-- Single-character membership in a string; models Python `"-" in key`
for a one-character needle. -/
def containsChar (c : Char) (s : String) : Bool :=
  s.data.any (fun x => x = c)

/-- The key-validation loop at the top of database.py `insert_row`:
raise on the first key containing a hyphen. -/
def insert_row_check : Row → Except MapErr Unit
  | [] => .ok ()
  | (key, _) :: rest =>
    if containsChar '-' key then .error (.invalidAttributeKey key)
    else insert_row_check rest

/-- The module-level tables of mapping.py that the edge loop consults
besides the alias table: `TYPES_MAP`, `EXPANSIONS`, `DROP_COMPONENTS`
(the latter two ship empty but the loop reads them). -/
structure Env : Type where
  types_map : List (String × String)
  expansions : List (String × List String)
  drop_components : List String
  deriving Repr

/-- One edge handed to database.py `create_relationship` by the loop in
import_data.py, together with its `all` metadata flag. -/
structure Edge : Type where
  src : String
  srcType : String
  dst : String
  dstType : String
  relName : String
  allFlag : Bool
  deriving DecidableEq, Repr

/-- Python `s.split(", ")`: split on each non-overlapping occurrence of
the two-character separator, left to right.  `acc` holds the characters
of the current token in reverse. -/
def splitCommaSpace (acc : List Char) : List Char → List (List Char)
  | [] => [acc.reverse]
  | ',' :: ' ' :: rest => acc.reverse :: splitCommaSpace [] rest
  | c :: rest => splitCommaSpace (c :: acc) rest

/-- Python `s.strip()`: drop whitespace from both ends. -/
def trimChars (l : List Char) : List Char :=
  ((l.dropWhile Char.isWhitespace).reverse.dropWhile Char.isWhitespace).reverse

/-- Python `s.lower()` (character-wise, as on the ASCII data here). -/
def lowerString (s : String) : String :=
  String.mk (s.data.map Char.toLower)

/-- import_data.py line 202: `[r.strip() for r in relationships.split(", ")]`. -/
def splitTokens (s : String) : List String :=
  (splitCommaSpace [] s.data).map (fun cs => String.mk (trimChars cs))

/-- import_data.py line 206: `len(relationships) == 1 and
relationships[0].lower() == "all"`. -/
def isAllWildcard (s : String) : Bool :=
  match splitTokens s with
  | [t] => lowerString t == "all"
  | _ => false

/-- import_data.py lines 211-213: expand every token through the
expansion table, concatenating in order. -/
def expandTokens (expansions : List (String × List String)) (tokens : List String) :
    List String :=
  tokens.flatMap (get_expansions expansions)

/-- The token list the per-token loop receives for one row: the split
destination column, or the wildcard expansion base, pushed through the
expansion table. -/
def rowDestinations (expansions : List (String × List String)) (s : String)
    (expansion : List String) : List String :=
  expandTokens expansions (if isAllWildcard s then expansion else splitTokens s)

/-- The per-token loop of import_data.py lines 216-256: drop-list check on
the raw token, name resolution, first-seen deduplication on the resolved
name (`mapped_nodes`), endpoint type resolution (fatal on failure), then
emission, with source/destination swapped when `reverse` is set.  Returns
the edges emitted before any failure together with the failure, mirroring
the fact that `session.execute_write` has already run for earlier tokens
when a later token raises. -/
def emitEdges (env : Env) (node node_type relationship_name : String)
    (allFlag reverse : Bool) (mapped : List String) :
    List String → List Edge × Option MapErr
  | [] => ([], none)
  | destination_node :: rest =>
    if drop_component env.drop_components destination_node then
      emitEdges env node node_type relationship_name allFlag reverse mapped rest
    else
      let destination := resolve_name_map destination_node
      if destination ∈ mapped then
        emitEdges env node node_type relationship_name allFlag reverse mapped rest
      else
        match resolve_name_to_type env.types_map destination with
        | .error e => ([], some e)
        | .ok destination_node_type =>
          let edge : Edge :=
            if reverse then
              ⟨destination, destination_node_type, node, node_type,
               relationship_name, allFlag⟩
            else
              ⟨node, node_type, destination, destination_node_type,
               relationship_name, allFlag⟩
          let next := emitEdges env node node_type relationship_name allFlag reverse
            (mapped ++ [destination]) rest
          (edge :: next.1, next.2)

/-- One iteration of the relationship loop of import_data.py lines
188-256, for one packaged tuple from `expand_relationship`: resolve and
type-check the source (this happens BEFORE the null check in the source),
silently skip a null destination column, then split, wildcard-expand,
umbrella-expand and run the per-token loop.  `none` models a pandas NaN
cell; an empty cell read from CSV is NaN, but an empty STRING is not. -/
def processEdgeRow (env : Env) (node : String) (relationships : Option String)
    (relationship_name : String) (expansion : List String) (reverse : Bool) :
    List Edge × Option MapErr :=
  let node' := resolve_name_map node
  match resolve_name_to_type env.types_map node' with
  | .error e => ([], some e)
  | .ok node_type =>
    match relationships with
    | none => ([], none)
    | some s =>
      emitEdges env node' node_type relationship_name (isAllWildcard s) reverse []
        (rowDestinations env.expansions s expansion)

/-- The endpoint of an emitted edge that came from the destination token
(the source when `reverse` swapped the pair). -/
def edgeEndpoint (reverse : Bool) (e : Edge) : String :=
  if reverse then e.src else e.dst

/-- First-seen-wins deduplication, mirroring the `mapped_nodes`
accumulator of the per-token loop. -/
def firstSeen (seen : List String) : List String → List String
  | [] => []
  | x :: xs => if x ∈ seen then firstSeen seen xs else x :: firstSeen (seen ++ [x]) xs

/-- oran_pipeline.py `ACADEMIC_COLUMNS`. -/
def ACADEMIC_COLUMNS : List String :=
  ["Name", "Type", "Description", "Target Components / Interfaces",
   "Affected Components / Interfaces", "Reference"]

/-- The two provenance columns `_union_headers` pushes to the end. -/
def PROV_COLS : List String := ["__source_file", "__source_doc"]

/-- The accumulation loop of oran_pipeline.py `_union_headers`: append
each incoming header not already present. -/
def addIncoming (out incoming : List String) : List String :=
  incoming.foldl (fun acc h => if h ∈ acc then acc else acc ++ [h]) out

/-- `out.remove(prov); out.append(prov)` when present. -/
def moveToEnd (out : List String) (p : String) : List String :=
  if p ∈ out then out.erase p ++ [p] else out

/-- oran_pipeline.py `_union_headers`. -/
def union_headers (existing incoming : List String) : List String :=
  let out := PROV_COLS.foldl moveToEnd (addIncoming existing incoming)
  if out = [] then ACADEMIC_COLUMNS else out

/-- oran_pipeline.py `_norm_row`, per column:
`(row.get(c, "") or "").strip()`. -/
def normVal (row : Row) (c : String) : String :=
  String.mk (trimChars ((getVal row c).getD "").data)

/-- oran_pipeline.py `_norm_row`: the trimmed tuple of values over the
union columns. -/
def normRow (row : Row) (cols : List String) : List String :=
  cols.map (normVal row)

/-- The dedup loop of `_append_to_master`: keep a new row only when its
normalized tuple is absent from `seen`, extending `seen` with each
accepted row. -/
def selectNew (headers : List String) (seen : List (List String)) :
    List Row → List Row
  | [] => []
  | r :: rs =>
    if normRow r headers ∈ seen then selectNew headers seen rs
    else r :: selectNew headers (seen ++ [normRow r headers]) rs

/-- oran_pipeline.py `_append_to_master`, with the file system abstracted:
the master file becomes its (header, row list) content, `masterExists`
models `master_csv.exists()`, and the CSV write/read round-trip is
identity on rows.  Returns (rows added, final header, final row list);
the final row list is existing rows first, then newly accepted rows,
exactly as the rewrite loop emits them. -/
def append_to_master (masterExists : Bool) (existing_headers : List String)
    (existing_rows : List Row) (headers : List String) (new_rows : List Row) :
    Nat × List String × List Row :=
  let headers := if masterExists then union_headers existing_headers headers
                 else headers
  let to_add := selectNew headers (existing_rows.map (fun r => normRow r headers))
    new_rows
  (to_add.length, headers, existing_rows ++ to_add)

/-! ### Association-list lemmas -/

theorem getVal_mem {α : Type} {l : List (String × α)} {k : String} {v : α}
    (h : getVal l k = some v) : (k, v) ∈ l := by
  induction l with
  | nil => simp [getVal] at h
  | cons p rest ih =>
    obtain ⟨k', v'⟩ := p
    by_cases hk : k' = k
    · subst hk
      simp [getVal] at h
      simp [h]
    · simp [getVal, hk] at h
      exact List.mem_cons_of_mem _ (ih h)

theorem getVal_append_some {α : Type} {l : List (String × α)} (l2 : List (String × α))
    {k : String} {v : α} (h : getVal l k = some v) : getVal (l ++ l2) k = some v := by
  induction l with
  | nil => simp [getVal] at h
  | cons p rest ih =>
    obtain ⟨k', v'⟩ := p
    by_cases hk : k' = k
    · subst hk
      simp [getVal] at h ⊢
      exact h
    · simp [getVal, hk] at h ⊢
      exact ih h

theorem getVal_eq_none_iff {α : Type} {l : List (String × α)} {k : String} :
    getVal l k = none ↔ k ∉ l.map Prod.fst := by
  induction l with
  | nil => simp [getVal]
  | cons p rest ih =>
    obtain ⟨k', v'⟩ := p
    by_cases hk : k' = k
    · subst hk
      simp [getVal]
    · simp [getVal, hk, ih, Ne.symm hk]

theorem mem_getVal {α : Type} {l : List (String × α)} {k : String} {v : α}
    (hnd : (l.map Prod.fst).Nodup) (h : (k, v) ∈ l) : getVal l k = some v := by
  induction l with
  | nil => simp at h
  | cons p rest ih =>
    obtain ⟨k', v'⟩ := p
    simp at hnd
    rcases List.mem_cons.mp h with hh | ht
    · rw [Prod.mk.injEq] at hh
      obtain ⟨h1, h2⟩ := hh
      subst h1
      subst h2
      simp [getVal]
    · have hk : k' ≠ k := by
        intro he
        subst he
        exact hnd.1 v ht
      simp [getVal, hk]
      exact ih hnd.2 ht

/-! ### Facts about the shipped alias table -/

theorem names_map_keys_nodup : (NAMES_MAP.map Prod.fst).Nodup := by decide

theorem names_map_values_closed :
    ∀ p ∈ NAMES_MAP, getVal NAMES_MAP p.2 = none ∧ p.2 ≠ "" := by decide

/-- Claim C8: the Name Resolver is a pure total function: it returns the
alias table's canonical string on keys of the table, returns the input
unchanged otherwise, and with the shipped table it is idempotent. -/
theorem resolve_name_map_total_idempotent (k v x y : String) :
    ((k, v) ∈ NAMES_MAP → resolve_name_map k = v) ∧
    (getVal NAMES_MAP x = none → resolve_name_map x = x) ∧
    resolve_name_map (resolve_name_map y) = resolve_name_map y := by
  refine ⟨?_, ?_, ?_⟩
  · intro hin
    have hv := mem_getVal names_map_keys_nodup hin
    have hne := (names_map_values_closed (k, v) hin).2
    simp [resolve_name_map, hv, hne]
  · intro h
    simp [resolve_name_map, h]
  · cases hy : getVal NAMES_MAP y with
    | none => simp [resolve_name_map, hy]
    | some v' =>
      have hmem := getVal_mem hy
      have h1 := (names_map_values_closed (y, v') hmem).1
      have h2 := (names_map_values_closed (y, v') hmem).2
      have hres : resolve_name_map y = v' := by simp [resolve_name_map, hy, h2]
      rw [hres]
      simp [resolve_name_map, h1]

theorem resolve_name_map_total_idempotent_witness :
    resolve_name_map "E2" = "E2 Interface" ∧
    resolve_name_map "O-Cloud" = "O-Cloud" ∧
    resolve_name_map (resolve_name_map "rApps") = resolve_name_map "rApps" :=
  ⟨(resolve_name_map_total_idempotent "E2" "E2 Interface" "O-Cloud" "rApps").1
      (by decide),
   (resolve_name_map_total_idempotent "E2" "E2 Interface" "O-Cloud" "rApps").2.1
      (by decide),
   (resolve_name_map_total_idempotent "E2" "E2 Interface" "O-Cloud" "rApps").2.2⟩

/-- Claim C2: registration is strictly once-only.  A register call for an
already-registered name fails with the duplicate-entity error whatever
type or attributes it supplies (and, the check preceding every write, the
registry is untouched), and a successful registration never changes the
type any already-registered name resolves to, so `resolve_name_to_type`
is stable across one run. -/
theorem register_once_and_type_stable (st : MapState) (name ty old : String)
    (md : Row) (name2 ty2 : String) (md2 : Row) (st' : MapState) (n t : String) :
    (getVal st.types_map name = some old →
      registerRow st name ty md = .error (.duplicateEntity name ty old)) ∧
    (registerRow st name2 ty2 md2 = .ok st' →
      getVal st.types_map n = some t → getVal st'.types_map n = some t) := by
  constructor
  · intro h
    simp [registerRow, h]
  · intro h hn
    cases hg : getVal st.types_map name2 with
    | some o => simp [registerRow, hg] at h
    | none =>
      simp [registerRow, hg] at h
      rw [← h]
      exact getVal_append_some _ hn

theorem register_once_and_type_stable_witness :
    registerRow ⟨[("A1 Interface", "Component")], []⟩ "A1 Interface" "Interface" [] =
      .error (.duplicateEntity "A1 Interface" "Interface" "Component") ∧
    getVal (MapState.mk [("A1 Interface", "Component"), ("SMO", "Component")]
      []).types_map "A1 Interface" = some "Component" :=
  ⟨(register_once_and_type_stable ⟨[("A1 Interface", "Component")], []⟩
      "A1 Interface" "Interface" "Component" [] "SMO" "Component" []
      ⟨[("A1 Interface", "Component"), ("SMO", "Component")], []⟩
      "A1 Interface" "Component").1 rfl,
   (register_once_and_type_stable ⟨[("A1 Interface", "Component")], []⟩
      "A1 Interface" "Interface" "Component" [] "SMO" "Component" []
      ⟨[("A1 Interface", "Component"), ("SMO", "Component")], []⟩
      "A1 Interface" "Component").2 rfl rfl⟩

/-! ### Registry key uniqueness through the registration phase -/

theorem registerRow_keys_nodup {st st' : MapState} {c ty : String} {md : Row}
    (hnd : (get_registered_nodes st).Nodup)
    (h : registerRow st c ty md = .ok st') : (get_registered_nodes st').Nodup := by
  cases hg : getVal st.types_map c with
  | some o => simp [registerRow, hg] at h
  | none =>
    simp [registerRow, hg] at h
    have hc : c ∉ st.types_map.map Prod.fst := getVal_eq_none_iff.mp hg
    rw [← h]
    simp only [get_registered_nodes, List.map_append, List.map_cons, List.map_nil]
    rw [List.nodup_append]
    refine ⟨hnd, List.nodup_singleton c, ?_⟩
    intro a ha hb
    rw [List.mem_singleton] at hb
    subst hb
    exact hc ha

theorem register_nodes_keys_nodup (rows : List (String × Row)) :
    ∀ (st st' : MapState) (ty : String), (get_registered_nodes st).Nodup →
    register_nodes st ty rows = .ok st' → (get_registered_nodes st').Nodup := by
  induction rows with
  | nil =>
    intro st st' ty hnd h
    simp [register_nodes] at h
    rw [← h]
    exact hnd
  | cons r rest ih =>
    intro st st' ty hnd h
    obtain ⟨c, md⟩ := r
    cases hr : registerRow st c ty md with
    | error e => simp [register_nodes, hr] at h
    | ok st2 =>
      simp only [register_nodes, hr] at h
      exact ih st2 st' ty (registerRow_keys_nodup hnd hr) h

theorem runRegistration_keys_nodup (batches : List (String × List (String × Row))) :
    ∀ (st st' : MapState), (get_registered_nodes st).Nodup →
    runRegistration st batches = .ok st' → (get_registered_nodes st').Nodup := by
  induction batches with
  | nil =>
    intro st st' hnd h
    simp [runRegistration] at h
    rw [← h]
    exact hnd
  | cons b rest ih =>
    intro st st' hnd h
    obtain ⟨ty, rows⟩ := b
    cases hr : register_nodes st ty rows with
    | error e => simp [runRegistration, hr] at h
    | ok st2 =>
      simp only [runRegistration, hr] at h
      exact ih st2 st' (register_nodes_keys_nodup rows st st2 ty hnd hr) h

/-- Claim C10: after any successful registration phase starting from the
empty registry, the node list handed to the writer
(`get_registered_nodes`, the registry key list) has no duplicates, so the
final "Duplicate nodes found" sanity check can never fire. -/
theorem duplicate_nodes_check_unreachable
    (batches : List (String × List (String × Row))) (st' : MapState)
    (h : runRegistration emptyMapState batches = .ok st') :
    duplicate_nodes_check (get_registered_nodes st') = false := by
  have hnd : (get_registered_nodes st').Nodup :=
    runRegistration_keys_nodup batches emptyMapState st'
      (by simp [get_registered_nodes, emptyMapState]) h
  simp [duplicate_nodes_check, List.Nodup.dedup hnd]

theorem duplicate_nodes_check_unreachable_witness :
    duplicate_nodes_check (get_registered_nodes
      ⟨[("O-Cloud", "Component"), ("SMO", "Component")], []⟩) = false :=
  duplicate_nodes_check_unreachable
    [("Component", [("O-Cloud", []), ("SMO", [])])]
    ⟨[("O-Cloud", "Component"), ("SMO", "Component")], []⟩ rfl

/-- Claim C5 (code bug): mapping.py line 99 guards with `if metadata in
data`, testing the incoming VALUE against the existing keys instead of
the tag.  Re-setting tag "t" of node "n" with a fresh value therefore
silently overwrites the stored value instead of raising, while setting a
fresh tag "u" whose value collides with the existing key "t" spuriously
raises the "already set" error. -/
theorem set_node_metadata_value_key_swap :
    set_node_metadata [("n", [("t", "v1")])] ["n"] "t" ["v2"] =
      .ok [("n", [("t", "v2")])] ∧
    set_node_metadata [("n", [("t", "v1")])] ["n"] "u" ["t"] =
      .error (.duplicateMetadata "n") := by
  constructor <;> rfl

/-- Claim C6 counterexample: an empty destination STRING is not a pandas
NaN, so the row is not skipped; the empty token survives splitting and
fails type resolution instead of being silently ignored. -/
theorem empty_destination_not_skipped :
    processEdgeRow ⟨[("RISK-1", "Threat")], [], []⟩ "RISK-1" (some "")
      "TARGETS" [] false = ([], some (.unknownEntity "")) := by rfl

/-- Claim C6 amended: a null (NaN) destination-column value is skipped
entirely and silently — no error, no edges — provided the row's source
name itself resolves (the source is type-checked before the null test). -/
theorem null_destination_skipped (env : Env) (node relationship_name : String)
    (expansion : List String) (reverse : Bool) (ntype : String)
    (hsrc : resolve_name_to_type env.types_map (resolve_name_map node) = .ok ntype) :
    processEdgeRow env node none relationship_name expansion reverse = ([], none) := by
  simp [processEdgeRow, hsrc]

theorem null_destination_skipped_witness :
    processEdgeRow ⟨[("RISK-1", "Threat")], [], []⟩ "RISK-1" none "TARGETS" []
      false = ([], none) :=
  null_destination_skipped ⟨[("RISK-1", "Threat")], [], []⟩ "RISK-1" "TARGETS"
    [] false "Threat" rfl

/-- Claim C1 counterexample: a row whose second token is unregistered
fails with the unknown-entity error, but the edge for the first token has
already been emitted to the writer — atomicity is NOT per-row
all-or-nothing. -/
theorem row_failure_still_emits_earlier_edges :
    (processEdgeRow ⟨[("SRC", "Threat"), ("CompA", "Component")], [], []⟩ "SRC"
        (some "CompA, CompB") "TARGETS" [] false).2 =
      some (.unknownEntity "CompB") ∧
    (processEdgeRow ⟨[("SRC", "Threat"), ("CompA", "Component")], [], []⟩ "SRC"
        (some "CompA, CompB") "TARGETS" [] false).1 =
      [⟨"SRC", "Threat", "CompA", "Component", "TARGETS", false⟩] := by
  constructor <;> rfl

/-- Claim C1 amended: when a destination token of a row fails type
resolution, the unknown-entity error is raised and no edge is emitted for
that token or for any later token of the row; edges for the earlier,
successfully resolved tokens of the same row have however already been
emitted (per-token fail-fast prefix emission, not per-row
all-or-nothing). -/
theorem token_failure_prefix_emission (env : Env)
    (node node_type relationship_name : String) (allFlag reverse : Bool)
    (mapped tokens : List String) (err : MapErr)
    (h : (emitEdges env node node_type relationship_name allFlag reverse mapped
      tokens).2 = some err) :
    ∃ pre tok post, tokens = pre ++ tok :: post ∧
      resolve_name_to_type env.types_map (resolve_name_map tok) = .error err ∧
      (emitEdges env node node_type relationship_name allFlag reverse mapped
        pre).2 = none ∧
      (emitEdges env node node_type relationship_name allFlag reverse mapped
        tokens).1 =
      (emitEdges env node node_type relationship_name allFlag reverse mapped
        pre).1 := by
  induction tokens generalizing mapped with
  | nil => simp [emitEdges] at h
  | cons t ts ih =>
    by_cases hd : drop_component env.drop_components t
    · simp only [emitEdges, hd, if_true] at h
      obtain ⟨pre, tok, post, h1, h2, h3, h4⟩ := ih mapped h
      refine ⟨t :: pre, tok, post, by rw [h1, List.cons_append], h2, ?_, ?_⟩
      · simp only [emitEdges, hd, if_true]
        exact h3
      · simp only [emitEdges, hd, if_true]
        exact h4
    · by_cases hm : resolve_name_map t ∈ mapped
      · simp only [emitEdges, hd, if_false, hm, if_true, Bool.false_eq_true] at h
        obtain ⟨pre, tok, post, h1, h2, h3, h4⟩ := ih mapped h
        refine ⟨t :: pre, tok, post, by rw [h1, List.cons_append], h2, ?_, ?_⟩
        · simp only [emitEdges, hd, if_false, hm, if_true, Bool.false_eq_true]
          exact h3
        · simp only [emitEdges, hd, if_false, hm, if_true, Bool.false_eq_true]
          exact h4
      · cases hr : resolve_name_to_type env.types_map (resolve_name_map t) with
        | error e =>
          simp only [emitEdges, hd, hm, hr, Bool.false_eq_true, if_false] at h
          simp at h
          refine ⟨[], t, ts, rfl, ?_, by simp [emitEdges], ?_⟩
          · rw [hr, h]
          · simp [emitEdges, hd, hm, hr]
        | ok dty =>
          simp only [emitEdges, hd, hm, hr, Bool.false_eq_true, if_false] at h
          obtain ⟨pre, tok, post, h1, h2, h3, h4⟩ :=
            ih (mapped ++ [resolve_name_map t]) h
          refine ⟨t :: pre, tok, post, by rw [h1, List.cons_append], h2, ?_, ?_⟩
          · simp only [emitEdges, hd, hm, hr, Bool.false_eq_true, if_false]
            exact h3
          · simp only [emitEdges, hd, hm, hr, Bool.false_eq_true, if_false]
            simp only [List.cons.injEq, true_and]
            exact h4

theorem token_failure_prefix_emission_witness :
    (emitEdges ⟨[("SRC", "Threat"), ("CompA", "Component")], [], []⟩ "SRC"
      "Threat" "TARGETS" false false [] ["CompA", "CompB"]).2 =
      some (.unknownEntity "CompB") ∧
    ∃ pre tok post, (["CompA", "CompB"] : List String) = pre ++ tok :: post ∧
      resolve_name_to_type [("SRC", "Threat"), ("CompA", "Component")]
        (resolve_name_map tok) = .error (.unknownEntity "CompB") ∧
      (emitEdges ⟨[("SRC", "Threat"), ("CompA", "Component")], [], []⟩ "SRC"
        "Threat" "TARGETS" false false [] pre).2 = none ∧
      (emitEdges ⟨[("SRC", "Threat"), ("CompA", "Component")], [], []⟩ "SRC"
        "Threat" "TARGETS" false false [] ["CompA", "CompB"]).1 =
      (emitEdges ⟨[("SRC", "Threat"), ("CompA", "Component")], [], []⟩ "SRC"
        "Threat" "TARGETS" false false [] pre).1 :=
  ⟨rfl, token_failure_prefix_emission
    ⟨[("SRC", "Threat"), ("CompA", "Component")], [], []⟩ "SRC" "Threat"
    "TARGETS" false false [] ["CompA", "CompB"] (.unknownEntity "CompB") rfl⟩

/-! ### Per-token loop characterization -/

theorem emitEdges_allFlag (env : Env) (node node_type relationship_name : String)
    (allFlag reverse : Bool) :
    ∀ (tokens mapped : List String) (e : Edge),
      e ∈ (emitEdges env node node_type relationship_name allFlag reverse mapped
        tokens).1 →
      e.allFlag = allFlag := by
  intro tokens
  induction tokens with
  | nil =>
    intro mapped e he
    simp [emitEdges] at he
  | cons t ts ih =>
    intro mapped e he
    by_cases hd : drop_component env.drop_components t
    · simp only [emitEdges, hd, if_true] at he
      exact ih mapped e he
    · by_cases hm : resolve_name_map t ∈ mapped
      · simp only [emitEdges, hd, Bool.false_eq_true, if_false, hm, if_true] at he
        exact ih mapped e he
      · cases hr : resolve_name_to_type env.types_map (resolve_name_map t) with
        | error er => simp [emitEdges, hd, hm, hr] at he
        | ok dty =>
          simp only [emitEdges, hd, Bool.false_eq_true, if_false, hm, if_true,
            hr, List.mem_cons] at he
          rcases he with he | he
          · subst he
            by_cases hrev : reverse <;> simp [hrev]
          · exact ih (mapped ++ [resolve_name_map t]) e he

theorem firstSeen_cons (seen : List String) (x : String) (xs : List String) :
    firstSeen seen (x :: xs) =
      if x ∈ seen then firstSeen seen xs else x :: firstSeen (seen ++ [x]) xs := by
  rfl

theorem emitEdges_endpoints (env : Env) (node node_type relationship_name : String)
    (allFlag reverse : Bool) :
    ∀ (tokens mapped : List String),
      (emitEdges env node node_type relationship_name allFlag reverse mapped
        tokens).2 = none →
      (emitEdges env node node_type relationship_name allFlag reverse mapped
        tokens).1.map (edgeEndpoint reverse) =
      firstSeen mapped ((tokens.filter
        (fun t => !(drop_component env.drop_components t))).map resolve_name_map) := by
  intro tokens
  induction tokens with
  | nil =>
    intro mapped h
    simp [emitEdges, firstSeen]
  | cons t ts ih =>
    intro mapped h
    by_cases hd : drop_component env.drop_components t
    · simp only [emitEdges, hd, if_true] at h ⊢
      rw [List.filter_cons_of_neg (by simp [hd])]
      exact ih mapped h
    · by_cases hm : resolve_name_map t ∈ mapped
      · simp only [emitEdges, hd, Bool.false_eq_true, if_false, hm, if_true] at h ⊢
        rw [List.filter_cons_of_pos (by simp [hd]), List.map_cons]
        rw [firstSeen_cons]
        simp only [hm, if_true]
        exact ih mapped h
      · cases hr : resolve_name_to_type env.types_map (resolve_name_map t) with
        | error er => simp [emitEdges, hd, hm, hr] at h
        | ok dty =>
          simp only [emitEdges, hd, Bool.false_eq_true, if_false, hm, if_true,
            hr] at h ⊢
          rw [List.filter_cons_of_pos (by simp [hd])]
          simp only [List.map_cons]
          rw [firstSeen_cons]
          simp only [hm, if_false]
          rw [ih (mapped ++ [resolve_name_map t]) h]
          by_cases hrev : reverse <;> simp [hrev, edgeEndpoint]

theorem count_firstSeen (d : String) :
    ∀ (l seen : List String),
      (firstSeen seen l).count d = if d ∈ l ∧ d ∉ seen then 1 else 0 := by
  intro l
  induction l with
  | nil =>
    intro seen
    simp [firstSeen]
  | cons x xs ih =>
    intro seen
    by_cases hx : x ∈ seen
    · simp only [firstSeen, hx, if_true]
      rw [ih seen]
      by_cases hdx : d = x
      · subst hdx
        simp [hx]
      · simp [List.mem_cons, hdx]
    · simp only [firstSeen_cons, hx, if_false]
      rw [List.count_cons, ih (seen ++ [x])]
      by_cases hdx : d = x
      · subst hdx
        simp [hx]
      · have hxd : ¬x = d := fun hh => hdx hh.symm
        simp [List.mem_cons, List.mem_append, hdx, hxd]

/-- Claim C3: every edge emitted for a row carries the wildcard metadata
flag exactly when the destination string splits into the single
case-insensitive token "all" (so the flag is false on every edge of every
other row), and for such a wildcard row with a non-empty expansion base
the emitted endpoints are exactly the expansion base's entities after
umbrella expansion, drop-list filtering, name resolution and first-seen
deduplication. -/
theorem wildcard_expansion_flag (env : Env) (node s relationship_name : String)
    (expansion : List String) (reverse : Bool) (ntype : String)
    (hsrc : resolve_name_to_type env.types_map (resolve_name_map node) = .ok ntype)
    (hne : expansion ≠ []) :
    (∀ e ∈ (processEdgeRow env node (some s) relationship_name expansion
      reverse).1, e.allFlag = isAllWildcard s) ∧
    (isAllWildcard s = true →
      (processEdgeRow env node (some s) relationship_name expansion reverse).2 =
        none →
      (processEdgeRow env node (some s) relationship_name expansion
        reverse).1.map (edgeEndpoint reverse) =
      firstSeen [] (((expandTokens env.expansions expansion).filter
        (fun t => !(drop_component env.drop_components t))).map
        resolve_name_map)) := by
  have hred : processEdgeRow env node (some s) relationship_name expansion
      reverse =
      emitEdges env (resolve_name_map node) ntype relationship_name
        (isAllWildcard s) reverse []
        (rowDestinations env.expansions s expansion) := by
    simp [processEdgeRow, hsrc]
  constructor
  · intro e he
    rw [hred] at he
    exact emitEdges_allFlag env (resolve_name_map node) ntype relationship_name
      (isAllWildcard s) reverse (rowDestinations env.expansions s expansion) [] e
      he
  · intro hw hok
    rw [hred] at hok ⊢
    have hdest : rowDestinations env.expansions s expansion =
        expandTokens env.expansions expansion := by
      simp [rowDestinations, hw]
    rw [hdest] at hok ⊢
    exact emitEdges_endpoints env (resolve_name_map node) ntype
      relationship_name (isAllWildcard s) reverse
      (expandTokens env.expansions expansion) [] hok

theorem wildcard_expansion_flag_witness :
    (∀ e ∈ (processEdgeRow
      ⟨[("THREAT-1", "Threat"), ("CompA", "Component"), ("CompB", "Component")],
        [], []⟩
      "THREAT-1" (some "All") "TARGETS" ["CompA", "CompB"] false).1,
      e.allFlag = isAllWildcard "All") ∧
    (processEdgeRow
      ⟨[("THREAT-1", "Threat"), ("CompA", "Component"), ("CompB", "Component")],
        [], []⟩
      "THREAT-1" (some "All") "TARGETS" ["CompA", "CompB"] false).1.map
      (edgeEndpoint false) =
    firstSeen [] (((expandTokens [] ["CompA", "CompB"]).filter
      (fun t => !(drop_component [] t))).map resolve_name_map) :=
  ⟨(wildcard_expansion_flag
      ⟨[("THREAT-1", "Threat"), ("CompA", "Component"), ("CompB", "Component")],
        [], []⟩
      "THREAT-1" "All" "TARGETS" ["CompA", "CompB"] false "Threat" rfl
      (by decide)).1,
   (wildcard_expansion_flag
      ⟨[("THREAT-1", "Threat"), ("CompA", "Component"), ("CompB", "Component")],
        [], []⟩
      "THREAT-1" "All" "TARGETS" ["CompA", "CompB"] false "Threat" rfl
      (by decide)).2 rfl rfl⟩

/-- Claim C4: within one successfully processed row, deduplication of
destinations happens after name resolution and is first-seen-wins with
source order preserved: the emitted endpoints are exactly the first-seen
deduplication of the resolved (drop-filtered) token list, and every
canonical name that list contains receives exactly one edge. -/
theorem row_dedup_after_resolution (env : Env) (node s relationship_name : String)
    (expansion : List String) (reverse : Bool) (ntype : String)
    (hsrc : resolve_name_to_type env.types_map (resolve_name_map node) = .ok ntype)
    (hok : (processEdgeRow env node (some s) relationship_name expansion
      reverse).2 = none) :
    (processEdgeRow env node (some s) relationship_name expansion reverse).1.map
      (edgeEndpoint reverse) =
    firstSeen [] (((rowDestinations env.expansions s expansion).filter
      (fun t => !(drop_component env.drop_components t))).map resolve_name_map) ∧
    ∀ d, d ∈ ((rowDestinations env.expansions s expansion).filter
        (fun t => !(drop_component env.drop_components t))).map resolve_name_map →
      ((processEdgeRow env node (some s) relationship_name expansion
        reverse).1.map (edgeEndpoint reverse)).count d = 1 := by
  have hred : processEdgeRow env node (some s) relationship_name expansion
      reverse =
      emitEdges env (resolve_name_map node) ntype relationship_name
        (isAllWildcard s) reverse []
        (rowDestinations env.expansions s expansion) := by
    simp [processEdgeRow, hsrc]
  rw [hred] at hok ⊢
  have hchar := emitEdges_endpoints env (resolve_name_map node) ntype
    relationship_name (isAllWildcard s) reverse
    (rowDestinations env.expansions s expansion) [] hok
  constructor
  · exact hchar
  · intro d hd2
    rw [hchar, count_firstSeen]
    simp [hd2]

theorem row_dedup_after_resolution_witness :
    ((processEdgeRow ⟨[("ATK-1", "Attack"), ("Non-RT RIC", "Component")], [], []⟩
      "ATK-1" (some "Non-RT-RIC, Non-RT RIC") "TARGETS" [] false).1.map
      (edgeEndpoint false)).count "Non-RT RIC" = 1 :=
  (row_dedup_after_resolution
    ⟨[("ATK-1", "Attack"), ("Non-RT RIC", "Component")], [], []⟩ "ATK-1"
    "Non-RT-RIC, Non-RT RIC" "TARGETS" [] false "Attack" rfl rfl).2
    "Non-RT RIC" (by decide)

/-! ### Attribute-key sanitization -/

theorem toNat_ofNat_valid {n : Nat} (h : n.isValidChar) :
    (Char.ofNat n).toNat = n := by
  unfold Char.ofNat
  rw [dif_pos h]
  rfl

theorem toLower_ne_hyphen {c : Char} (h : c ≠ '-') : c.toLower ≠ '-' := by
  unfold Char.toLower
  by_cases hcond : c.toNat ≥ 65 ∧ c.toNat ≤ 90
  · rw [if_pos hcond]
    intro hc
    have h2 := congrArg Char.toNat hc
    have hv : (c.toNat + 32).isValidChar := by
      left
      omega
    rw [toNat_ofNat_valid hv] at h2
    have h3 : ('-').toNat = 45 := by decide
    omega
  · rw [if_neg hcond]
    exact h

theorem cleanupChar_out {c d : Char} (h : cleanupChar c = some d) :
    d = '_' ∨ d = c.toLower := by
  simp only [cleanupChar] at h
  repeat' split at h
  all_goals simp only [Option.some.injEq, reduceCtorEq] at h
  all_goals first
    | exact Or.inl h.symm
    | exact Or.inr h.symm

theorem cleanup_string_no_hyphen {s : String}
    (h : containsChar '-' s = false) :
    containsChar '-' (cleanup_string s) = false := by
  rw [containsChar, List.any_eq_false] at h ⊢
  intro d hd
  simp only [decide_eq_true_eq]
  rw [cleanup_string] at hd
  simp only [List.mem_filterMap] at hd
  obtain ⟨a, ha, hca⟩ := hd
  have hane : a ≠ '-' := by
    intro he
    have hh := h a ha
    rw [he] at hh
    simp at hh
  rcases cleanupChar_out hca with h1 | h1
  · subst h1
    decide
  · subst h1
    exact toLower_ne_hyphen hane

/-- Claim C7 counterexample: `cleanup_string` never removes hyphens, so a
metadata key containing a hyphen survives sanitization unchanged and the
writer's invalid-attribute-key branch fires on it — the branch is NOT
unreachable on sanitized attributes. -/
theorem hyphen_key_survives_sanitization :
    cleanup_string "a-b" = "a-b" ∧
    insert_row_check (cleanup_key_names [("a-b", "v")]) =
      .error (.invalidAttributeKey "a-b") := by
  constructor <;> rfl

/-- Claim C7 amended: sanitization lowercases and rewrites spaces, colons,
slashes, parentheses and dots, none of which produces a hyphen, so for
every attribute row whose original keys are hyphen-free the sanitized keys
are hyphen-free and the writer's invalid-attribute-key branch cannot fire;
keys that already contain a hyphen, however, pass through and do trip it. -/
theorem sanitized_keys_pass_check (row : Row)
    (h : ∀ kv ∈ row, containsChar '-' kv.1 = false) :
    insert_row_check (cleanup_key_names row) = .ok () := by
  induction row with
  | nil => rfl
  | cons kv rest ih =>
    have hk : containsChar '-' (cleanup_string kv.1) = false :=
      cleanup_string_no_hyphen (h kv (List.mem_cons_self kv rest))
    simp only [cleanup_key_names, List.map_cons, insert_row_check, hk,
      Bool.false_eq_true, if_false]
    exact ih (fun kv2 h2 => h kv2 (List.mem_cons_of_mem kv h2))

theorem sanitized_keys_pass_check_witness :
    insert_row_check (cleanup_key_names
      [("CVSS (V3.1)", "x"), ("Date Published", "y")]) = .ok () :=
  sanitized_keys_pass_check [("CVSS (V3.1)", "x"), ("Date Published", "y")]
    (by decide)

/-! ### Merge-pipeline lemmas -/

theorem map_congr_mem {α β : Type} {l : List α} {f g : α → β}
    (h : ∀ a ∈ l, f a = g a) : l.map f = l.map g := by
  induction l with
  | nil => rfl
  | cons x xs ih =>
    simp only [List.map_cons, h x (List.mem_cons_self x xs),
      ih (fun a ha => h a (List.mem_cons_of_mem x ha))]

theorem map_eq_pointwise {α β : Type} {l : List α} {f g : α → β}
    (h : l.map f = l.map g) : ∀ a ∈ l, f a = g a := by
  induction l with
  | nil =>
    intro a ha
    simp at ha
  | cons x xs ih =>
    intro a ha
    simp only [List.map_cons, List.cons.injEq] at h
    rcases List.mem_cons.mp ha with h1 | h1
    · subst h1
      exact h.1
    · exact ih h.2 a h1

theorem addIncoming_nil (out : List String) : addIncoming out [] = out := rfl

theorem addIncoming_cons (out : List String) (x : String) (xs : List String) :
    addIncoming out (x :: xs) =
      addIncoming (if x ∈ out then out else out ++ [x]) xs := rfl

theorem mem_addIncoming_left {c : String} :
    ∀ (inc out : List String), c ∈ out → c ∈ addIncoming out inc := by
  intro inc
  induction inc with
  | nil =>
    intro out h
    exact h
  | cons x xs ih =>
    intro out h
    rw [addIncoming_cons]
    apply ih
    split
    · exact h
    · exact List.mem_append_left _ h

theorem mem_addIncoming_right {c : String} :
    ∀ (inc out : List String), c ∈ inc → c ∈ addIncoming out inc := by
  intro inc
  induction inc with
  | nil =>
    intro out h
    simp at h
  | cons x xs ih =>
    intro out h
    rw [addIncoming_cons]
    rcases List.mem_cons.mp h with h1 | h1
    · subst h1
      apply mem_addIncoming_left
      split
      · assumption
      · exact List.mem_append_right _ (List.mem_singleton_self c)
    · exact ih _ h1

theorem addIncoming_subset :
    ∀ (inc out : List String), (∀ c ∈ inc, c ∈ out) → addIncoming out inc = out := by
  intro inc
  induction inc with
  | nil =>
    intro out _
    rfl
  | cons x xs ih =>
    intro out h
    rw [addIncoming_cons, if_pos (h x (List.mem_cons_self x xs))]
    exact ih out (fun c hc => h c (List.mem_cons_of_mem x hc))

theorem mem_moveToEnd {c p : String} {out : List String} :
    c ∈ moveToEnd out p ↔ c ∈ out := by
  rw [moveToEnd]
  split
  · rename_i hp
    simp only [List.mem_append, List.mem_singleton]
    constructor
    · intro hc
      rcases hc with hc | hc
      · exact List.mem_of_mem_erase hc
      · subst hc
        exact hp
    · intro hc
      by_cases hcp : c = p
      · right
        exact hcp
      · left
        exact (List.mem_erase_of_ne hcp).mpr hc
  · exact Iff.rfl

theorem mem_foldProv {c : String} {out : List String} :
    c ∈ PROV_COLS.foldl moveToEnd out ↔ c ∈ out := by
  show c ∈ moveToEnd (moveToEnd out "__source_file") "__source_doc" ↔ c ∈ out
  rw [mem_moveToEnd, mem_moveToEnd]

theorem union_headers_ne_nil (a b : List String) : union_headers a b ≠ [] := by
  simp only [union_headers]
  split
  · decide
  · assumption

theorem mem_union_headers_right {c : String} {ex inc : List String}
    (h : c ∈ inc) : c ∈ union_headers ex inc := by
  simp only [union_headers]
  have h1 : c ∈ PROV_COLS.foldl moveToEnd (addIncoming ex inc) :=
    mem_foldProv.mpr (mem_addIncoming_right inc ex h)
  split
  · rename_i hcond
    rw [hcond] at h1
    simp at h1
  · exact h1

theorem union_headers_subset {ex inc : List String}
    (hsub : ∀ c ∈ inc, c ∈ ex) (hne : ex ≠ []) :
    ∀ c ∈ union_headers ex inc, c ∈ ex := by
  intro c hc
  simp only [union_headers, addIncoming_subset inc ex hsub] at hc
  by_cases hcond : PROV_COLS.foldl moveToEnd ex = []
  · exfalso
    obtain ⟨x, hx⟩ := List.exists_mem_of_ne_nil ex hne
    have hxf : x ∈ PROV_COLS.foldl moveToEnd ex := mem_foldProv.mpr hx
    rw [hcond] at hxf
    simp at hxf
  · rw [if_neg hcond] at hc
    exact mem_foldProv.mp hc

theorem normRow_transfer {m r : Row} {h1 h2 : List String}
    (hsub : ∀ c ∈ h2, c ∈ h1) (he : normRow m h1 = normRow r h1) :
    normRow m h2 = normRow r h2 := by
  have hp := map_eq_pointwise he
  exact map_congr_mem (fun c hc => hp c (hsub c hc))

theorem selectNew_covers (headers : List String) :
    ∀ (rows : List Row) (seen : List (List String)), ∀ r ∈ rows,
      normRow r headers ∈ seen ∨
      ∃ m ∈ selectNew headers seen rows, normRow m headers = normRow r headers := by
  intro rows
  induction rows with
  | nil =>
    intro seen r hr
    simp at hr
  | cons r0 rs ih =>
    intro seen r hr
    by_cases hs : normRow r0 headers ∈ seen
    · simp only [selectNew, hs, if_true]
      rcases List.mem_cons.mp hr with h1 | h1
      · subst h1
        left
        exact hs
      · exact ih seen r h1
    · simp only [selectNew, hs, if_false]
      rcases List.mem_cons.mp hr with h1 | h1
      · subst h1
        right
        exact ⟨r, List.mem_cons_self r _, rfl⟩
      · rcases ih (seen ++ [normRow r0 headers]) r h1 with h2 | ⟨m, hm, he⟩
        · rcases List.mem_append.mp h2 with h3 | h3
          · left
            exact h3
          · right
            rw [List.mem_singleton] at h3
            exact ⟨r0, List.mem_cons_self r0 _, h3.symm⟩
        · right
          exact ⟨m, List.mem_cons_of_mem r0 hm, he⟩

theorem selectNew_nil_of_seen (headers : List String) :
    ∀ (rows : List Row) (seen : List (List String)),
      (∀ r ∈ rows, normRow r headers ∈ seen) →
      selectNew headers seen rows = [] := by
  intro rows
  induction rows with
  | nil =>
    intro seen _
    rfl
  | cons r0 rs ih =>
    intro seen h
    simp only [selectNew, h r0 (List.mem_cons_self r0 rs), if_true]
    exact ih seen (fun r hr => h r (List.mem_cons_of_mem r0 hr))

/-- Claim C9: the master-CSV append is idempotent.  Running the append a
second time with the same incoming headers and rows adds zero rows and
leaves the master's row list (hence its row count) unchanged, because a
row is appended only when its trimmed value tuple over the union columns
is absent from the existing rows and from rows accepted earlier in the
batch.  `incoming ≠ []` holds at the call site: `_iter_run_rows` falls
back to the canonical academic columns when no header was read. -/
theorem master_append_idempotent (masterExists : Bool)
    (existing_headers : List String) (existing_rows : List Row)
    (incoming : List String) (new_rows : List Row) (hI : incoming ≠ []) :
    (append_to_master true
      (append_to_master masterExists existing_headers existing_rows incoming
        new_rows).2.1
      (append_to_master masterExists existing_headers existing_rows incoming
        new_rows).2.2 incoming new_rows).1 = 0 ∧
    (append_to_master true
      (append_to_master masterExists existing_headers existing_rows incoming
        new_rows).2.1
      (append_to_master masterExists existing_headers existing_rows incoming
        new_rows).2.2 incoming new_rows).2.2 =
    (append_to_master masterExists existing_headers existing_rows incoming
      new_rows).2.2 := by
  have hA1 : append_to_master masterExists existing_headers existing_rows
      incoming new_rows =
      ((selectNew
          (if masterExists then union_headers existing_headers incoming
           else incoming)
          (existing_rows.map (fun r => normRow r
            (if masterExists then union_headers existing_headers incoming
             else incoming))) new_rows).length,
        (if masterExists then union_headers existing_headers incoming
         else incoming),
        existing_rows ++ selectNew
          (if masterExists then union_headers existing_headers incoming
           else incoming)
          (existing_rows.map (fun r => normRow r
            (if masterExists then union_headers existing_headers incoming
             else incoming))) new_rows) := by
    cases masterExists <;> rfl
  rw [hA1]
  have hIh1 : ∀ c ∈ incoming,
      c ∈ (if masterExists then union_headers existing_headers incoming
           else incoming) := by
    intro c hc
    cases masterExists
    · simpa using hc
    · simpa using mem_union_headers_right hc
  have hh1ne : (if masterExists then union_headers existing_headers incoming
      else incoming) ≠ [] := by
    cases masterExists
    · simpa using hI
    · simpa using union_headers_ne_nil existing_headers incoming
  generalize hH : (if masterExists then union_headers existing_headers incoming
    else incoming) = h1 at hIh1 hh1ne ⊢
  have hsub : ∀ c ∈ union_headers h1 incoming, c ∈ h1 :=
    union_headers_subset hIh1 hh1ne
  have hcov : ∀ r ∈ new_rows,
      ∃ m ∈ existing_rows ++ selectNew h1
        (existing_rows.map (fun r => normRow r h1)) new_rows,
        normRow m h1 = normRow r h1 := by
    intro r hr
    rcases selectNew_covers h1 new_rows
      (existing_rows.map (fun r => normRow r h1)) r hr with hseen | ⟨m, hm, he⟩
    · rcases List.mem_map.mp hseen with ⟨m, hm, he⟩
      exact ⟨m, List.mem_append_left _ hm, he⟩
    · exact ⟨m, List.mem_append_right _ hm, he⟩
  have hcov2 : ∀ r ∈ new_rows,
      normRow r (union_headers h1 incoming) ∈
        (existing_rows ++ selectNew h1
          (existing_rows.map (fun r => normRow r h1)) new_rows).map
          (fun r => normRow r (union_headers h1 incoming)) := by
    intro r hr
    obtain ⟨m, hm, he⟩ := hcov r hr
    exact List.mem_map.mpr ⟨m, hm, normRow_transfer hsub he⟩
  have hsel : selectNew (union_headers h1 incoming)
      ((existing_rows ++ selectNew h1
        (existing_rows.map (fun r => normRow r h1)) new_rows).map
        (fun r => normRow r (union_headers h1 incoming))) new_rows = [] :=
    selectNew_nil_of_seen (union_headers h1 incoming) new_rows _ hcov2
  have hA2 : append_to_master true h1
      (existing_rows ++ selectNew h1
        (existing_rows.map (fun r => normRow r h1)) new_rows) incoming
      new_rows =
      ((selectNew (union_headers h1 incoming)
          ((existing_rows ++ selectNew h1
            (existing_rows.map (fun r => normRow r h1)) new_rows).map
            (fun r => normRow r (union_headers h1 incoming))) new_rows).length,
        union_headers h1 incoming,
        (existing_rows ++ selectNew h1
          (existing_rows.map (fun r => normRow r h1)) new_rows) ++
        selectNew (union_headers h1 incoming)
          ((existing_rows ++ selectNew h1
            (existing_rows.map (fun r => normRow r h1)) new_rows).map
            (fun r => normRow r (union_headers h1 incoming))) new_rows) := rfl
  rw [hA2, hsel]
  simp

theorem master_append_idempotent_witness :
    (append_to_master true
      (append_to_master false [] [] ["Name", "Type"]
        [[("Name", "Sybil"), ("Type", "Attack")]]).2.1
      (append_to_master false [] [] ["Name", "Type"]
        [[("Name", "Sybil"), ("Type", "Attack")]]).2.2 ["Name", "Type"]
      [[("Name", "Sybil"), ("Type", "Attack")]]).1 = 0 ∧
    (append_to_master true
      (append_to_master false [] [] ["Name", "Type"]
        [[("Name", "Sybil"), ("Type", "Attack")]]).2.1
      (append_to_master false [] [] ["Name", "Type"]
        [[("Name", "Sybil"), ("Type", "Attack")]]).2.2 ["Name", "Type"]
      [[("Name", "Sybil"), ("Type", "Attack")]]).2.2 =
    (append_to_master false [] [] ["Name", "Type"]
      [[("Name", "Sybil"), ("Type", "Attack")]]).2.2 :=
  master_append_idempotent false [] [] ["Name", "Type"]
    [[("Name", "Sybil"), ("Type", "Attack")]] (by decide)
